import Mathlib

/-!
Shallow embedding of the Camera Device Session Coordinator of
`src/server.py` (Canon EOS studio remote), together with proofs about the
properties its specification states.

The embedding covers:
* the retry loop of `_capture_one` (2 attempts, 0.6 s delay) and of
  `_pull_latest_from_camera_for_preview` (3 attempts, 0.8 s delay), and the
  retry-free per-file transfer of `_import_worker`;
* the intervalometer worker `_interval_worker`;
* the import worker `_import_worker` (candidate selection, counters,
  high-water mark persistence, cooperative cancellation);
* the MJPEG frame demuxer of `live_stream`;
* the capture cooldown gate of the `/capture` endpoint;
* lock/sleep/device-subprocess traces of the device-touching operations,
  with an interleaving semantics for concurrency claims;
* the shared `interval_state` error field written by `_capture_one`.

Durations are modelled in milliseconds (`0.6 s = 600`), bytes as `Nat`
values, and subprocess outcomes as explicit inductive results.
-/

namespace CanonRemote

/-! ## Retry policy (`_capture_one`, `_pull_latest_from_camera_for_preview`)

Both functions run the same loop shape:

```
for i in range(attempts):
    try:   <gphoto2 call>; break / return
    except CalledProcessError:
        transient = <scan output for busy/claim/I-O substrings>
        if transient and i < attempts - 1:
            time.sleep(delay); continue
        break / raise
```

We model one invocation of the wrapped gphoto2 call as a `GwOutcome`
(indexed by the invocation number), and the loop as `retryFrom`, returning
whether the call eventually succeeded, how many times the operation was
invoked, and the list of sleep durations performed between attempts. -/

/-- Outcome of a single gphoto2 subprocess invocation: success, a failure
whose output matches one of the transient keywords (busy / USB claim /
I/O error), or any other failure. -/
inductive GwOutcome where
  | ok : GwOutcome
  | transientFail : GwOutcome
  | permFail : GwOutcome
deriving DecidableEq, Repr

/-- The retry loop of `_capture_one` / `_pull_latest_from_camera_for_preview`,
starting at invocation index `i` with `rem` loop iterations left.
Returns `(succeeded, invocations, sleeps)`. -/
def retryFrom (gw : Nat → GwOutcome) (delayMs : Nat) : Nat → Nat → Bool × Nat × List Nat
  | _, 0 => (false, 0, [])
  | i, rem + 1 =>
    match gw i with
    | .ok => (true, 1, [])
    | .transientFail =>
      if rem = 0 then
        (false, 1, [])
      else
        let r := retryFrom gw delayMs (i + 1) rem
        (r.1, r.2.1 + 1, delayMs :: r.2.2)
    | .permFail => (false, 1, [])

/-- `withRetry gw attempts delayMs` is the whole retried call:
`for i in range(attempts)` starting at `i = 0`. -/
def withRetry (gw : Nat → GwOutcome) (attempts delayMs : Nat) : Bool × Nat × List Nat :=
  retryFrom gw delayMs 0 attempts

/-- `_capture_one` : `attempts = 2`, `delay = 0.6` seconds. -/
def captureAttempts : Nat := 2

/-- `_capture_one` : `delay = 0.6` seconds between retries. -/
def captureDelayMs : Nat := 600

/-- The retried capture primitive of `_capture_one`. -/
def captureWithRetry (gw : Nat → GwOutcome) : Bool × Nat × List Nat :=
  withRetry gw captureAttempts captureDelayMs

/-- `_pull_latest_from_camera_for_preview` : `attempts = 3`, `delay = 0.8` s. -/
def previewSyncAttempts : Nat := 3

/-- `_pull_latest_from_camera_for_preview` : `delay = 0.8` s between retries. -/
def previewSyncDelayMs : Nat := 800

/-- The retried preview card-sync file fetch. -/
def previewSyncFetch (gw : Nat → GwOutcome) : Bool × Nat × List Nat :=
  withRetry gw previewSyncAttempts previewSyncDelayMs

/-- The per-file transfer of `_import_worker`: a single
`gphoto2 --get-file <idx> --skip-existing` subprocess call with no
surrounding retry loop.  Returns `(succeeded, invocations, sleeps)`. -/
def importFileTransfer (gw : Nat → GwOutcome) : Bool × Nat × List Nat :=
  match gw 0 with
  | .ok => (true, 1, [])
  | .transientFail => (false, 1, [])
  | .permFail => (false, 1, [])

/-- A fake gateway that fails with a transient error on the first `n`
invocations and succeeds from then on. -/
def fakeTransientGw (n : Nat) : Nat → GwOutcome :=
  fun i => if i < n then .transientFail else .ok

/-- A fake gateway that always fails with a non-transient error. -/
def permFailGw : Nat → GwOutcome := fun _ => .permFail

/-- A fake gateway that always fails with a transient error. -/
def alwaysTransientGw : Nat → GwOutcome := fun _ => .transientFail

theorem retryFrom_succ (gw : Nat → GwOutcome) (d i rem : Nat) :
    retryFrom gw d i (rem + 1) =
      match gw i with
      | .ok => (true, 1, [])
      | .transientFail =>
        if rem = 0 then
          (false, 1, [])
        else
          ((retryFrom gw d (i + 1) rem).1,
            (retryFrom gw d (i + 1) rem).2.1 + 1,
            d :: (retryFrom gw d (i + 1) rem).2.2)
      | .permFail => (false, 1, []) := by
  cases h : gw i <;> simp [retryFrom, h]

theorem retryFrom_fakeTransient (n : Nat) (d : Nat) :
    ∀ rem i, n ≤ i + rem → i ≤ n →
      retryFrom (fakeTransientGw n) d i (rem + 1) =
        (decide (n < i + rem + 1), n - i + 1, List.replicate (n - i) d) := by
  intro rem
  induction rem with
  | zero =>
    intro i h1 h2
    have : i = n := le_antisymm h2 (by simpa using h1)
    subst this
    simp [retryFrom_succ, fakeTransientGw]
  | succ m ih =>
    intro i h1 h2
    rcases lt_or_eq_of_le h2 with hlt | heq
    · have hgw : fakeTransientGw n i = .transientFail := by
        simp [fakeTransientGw, hlt]
      have hrec := ih (i + 1) (by omega) (by omega)
      rw [retryFrom_succ, hgw]
      simp only []
      rw [if_neg (by omega)]
      rw [hrec]
      have h3 : n - i = (n - (i + 1)) + 1 := by omega
      have h5 : i + 1 + m + 1 = i + (m + 1) + 1 := by omega
      rw [h3, List.replicate_succ, h5]
    · subst heq
      have hgw : fakeTransientGw i i = .ok := by
        simp [fakeTransientGw]
      rw [retryFrom_succ, hgw]
      simp
      omega

theorem retryFrom_allTransient (n : Nat) (d : Nat) :
    ∀ rem i, i + rem < n →
      retryFrom (fakeTransientGw n) d i (rem + 1) =
        (false, rem + 1, List.replicate rem d) := by
  intro rem
  induction rem with
  | zero =>
    intro i h
    have hgw : fakeTransientGw n i = .transientFail := by
      simp [fakeTransientGw]; omega
    rw [retryFrom_succ, hgw]
    simp
  | succ m ih =>
    intro i h
    have hgw : fakeTransientGw n i = .transientFail := by
      simp [fakeTransientGw]; omega
    rw [retryFrom_succ, hgw]
    simp only []
    rw [if_neg (by omega)]
    rw [ih (i + 1) (by omega)]
    simp [List.replicate_succ]

/-- `withRetry` on a gateway that fails transiently `n` times then succeeds,
with `a + 1` attempts allowed. -/
theorem withRetry_fakeTransient (n a d : Nat) :
    withRetry (fakeTransientGw n) (a + 1) d =
      (decide (n < a + 1), min (n + 1) (a + 1), List.replicate (min n a) d) := by
  unfold withRetry
  rcases le_or_lt n a with h | h
  · rw [retryFrom_fakeTransient n d a 0 (by omega) (by omega)]
    have h1 : min n a = n := by omega
    have h2 : min (n + 1) (a + 1) = n + 1 := by omega
    rw [h1, h2]
    simp
  · rw [retryFrom_allTransient n d a 0 (by omega)]
    have h1 : min n a = a := by omega
    have h2 : min (n + 1) (a + 1) = a + 1 := by omega
    rw [h1, h2]
    simp
    omega

theorem withRetry_permFail (a d : Nat) :
    withRetry permFailGw (a + 1) d = (false, 1, []) := by
  unfold withRetry
  rw [retryFrom_succ]
  rfl

/-- **C7.** Given an underlying capture operation that fails with a transient
error `N` times and then succeeds, the capture retry wrapper succeeds iff
`N < maxAttempts` (2 for capture) and invokes the operation exactly
`min (N+1) maxAttempts` times; an operation that fails with a non-transient
error is invoked exactly once and never retried. -/
theorem C7_retry_policy :
    (∀ N, ((captureWithRetry (fakeTransientGw N)).1 = true ↔ N < captureAttempts)) ∧
    (∀ N, (captureWithRetry (fakeTransientGw N)).2.1 = min (N + 1) captureAttempts) ∧
    (∀ N a d, ((withRetry (fakeTransientGw N) (a + 1) d).1 = true ↔ N < a + 1)) ∧
    (∀ N a d, (withRetry (fakeTransientGw N) (a + 1) d).2.1 = min (N + 1) (a + 1)) ∧
    (∀ a d, withRetry permFailGw (a + 1) d = (false, 1, [])) ∧
    captureWithRetry permFailGw = (false, 1, []) := by
  refine ⟨?_, ?_, ?_, ?_, ?_, ?_⟩
  · intro N
    show ((withRetry (fakeTransientGw N) (1 + 1) captureDelayMs).1 = true ↔ N < 2)
    rw [withRetry_fakeTransient]
    simp
  · intro N
    show (withRetry (fakeTransientGw N) (1 + 1) captureDelayMs).2.1 = min (N + 1) 2
    rw [withRetry_fakeTransient]
  · intro N a d
    rw [withRetry_fakeTransient]
    simp
  · intro N a d
    rw [withRetry_fakeTransient]
  · intro a d
    exact withRetry_permFail a d
  · exact withRetry_permFail 1 captureDelayMs

/-- **C2 counterexample.** The import job's per-file transfer does *not*
retry: on a transiently failing device call it invokes the gphoto2 transfer
exactly once (not 3 times), performing no 0.8 s sleeps. -/
theorem C2_counterexample :
    (importFileTransfer alwaysTransientGw).2.1 = 1 ∧
    (importFileTransfer alwaysTransientGw).2.2 = [] ∧
    (1 : Nat) ≠ 3 := by
  refine ⟨rfl, rfl, by decide⟩

/-- **C2 (amended).** The manual/interval capture primitive retries a
transiently failing device call with exactly 2 attempts separated by a
0.6 s delay; the *preview card-sync* file fetch retries with exactly
3 attempts separated by a 0.8 s delay; the import job's per-file transfer
performs exactly one attempt with no retry and no sleep. -/
theorem C2_retry_parameters :
    captureWithRetry alwaysTransientGw = (false, 2, [600]) ∧
    captureDelayMs = 600 ∧ captureAttempts = 2 ∧
    previewSyncFetch alwaysTransientGw = (false, 3, [800, 800]) ∧
    previewSyncDelayMs = 800 ∧ previewSyncAttempts = 3 ∧
    (∀ gw, (importFileTransfer gw).2.1 = 1 ∧ (importFileTransfer gw).2.2 = []) := by
  refine ⟨by decide, rfl, rfl, by decide, rfl, rfl, ?_⟩
  intro gw
  cases h : gw 0 <;> simp [importFileTransfer, h]

/-! ## Intervalometer (`_interval_worker`, `/api/interval/*`)

`_interval_worker(interval_s, count)` initialises
`interval_state = {running: True, interval, remaining: count, total: count,
last_error: None}` and then loops:

```
while True:
    if not running: break
    if remaining <= 0: running = False; break
    with cam_lock: ok, _, _, _ = _capture_one()
    if not ok: running = False; break
    remaining -= 1
    if interval_s <= 0: continue
    time.sleep(interval_s)
```

We model the sequence of (already retried) capture outcomes as
`cap : Nat → Bool` and fold the loop by recursion on `remaining`
(each continuing iteration decrements it). -/

/-- Result of one run of the intervalometer loop: number of capture
attempts performed, the final `remaining` counter, the inter-capture
sleeps performed, and whether the loop stopped because a capture failed. -/
structure IntervalRun where
  attempts : Nat
  remaining : Nat
  sleeps : List Nat
  failed : Bool
deriving DecidableEq, Repr

/-- The `while True` loop of `_interval_worker`, with `k` the index of the
next capture. -/
def intervalLoop (cap : Nat → Bool) (intervalMs : Nat) : Nat → Nat → IntervalRun
  | 0, _ => ⟨0, 0, [], false⟩
  | r + 1, k =>
    if cap k then
      let rest := intervalLoop cap intervalMs r (k + 1)
      ⟨rest.attempts + 1, rest.remaining,
        (if intervalMs = 0 then [] else [intervalMs]) ++ rest.sleeps, rest.failed⟩
    else
      ⟨1, r + 1, [], true⟩

/-- Snapshot of `interval_state` as returned by `/api/interval/status`. -/
structure IntervalState where
  running : Bool
  intervalMs : Nat
  remaining : Nat
  total : Nat
  lastError : Option String
deriving DecidableEq, Repr

/-- `_interval_worker interval count`: final `interval_state` snapshot
(`err` is the error text `_capture_one` records on the failing capture),
together with the number of capture attempts and the sleeps performed. -/
def intervalWorker (cap : Nat → Bool) (intervalMs count : Nat) (err : String) :
    IntervalState × Nat × List Nat :=
  let run := intervalLoop cap intervalMs count 0
  (⟨false, intervalMs, run.remaining, count,
    if run.failed then some err else none⟩, run.attempts, run.sleeps)

/-- Capture outcome sequence in which only the 2nd capture fails. -/
def capSecondFails : Nat → Bool := fun k => !(k == 1)

theorem intervalLoop_allOk_zero :
    ∀ r k, intervalLoop (fun _ => true) 0 r k = ⟨r, 0, [], false⟩ := by
  intro r
  induction r with
  | zero => intro k; rfl
  | succ m ih =>
    intro k
    simp [intervalLoop, ih (k + 1)]

/-- **C3 counterexample.** Intervalometer with `count = 3, interval = 0`
where the 2nd capture fails: the final interval status reports
`remaining = 2`, not `remaining = 1` as the claim states. -/
theorem C3_counterexample :
    (intervalWorker capSecondFails 0 3 "err").1.remaining = 2 ∧
    (2 : Nat) ≠ 1 := by
  exact ⟨rfl, by decide⟩

/-- **C3 (amended).** An intervalometer job with `count = 3, interval = 0`
performs exactly 3 capture attempts with no inter-attempt sleep when all
captures succeed; if the 2nd capture fails, the job stops with
`remaining = 2` and `running = false`, records the capture error, and no
3rd capture attempt occurs (exactly 2 attempts are made). -/
theorem C3_interval_job (err : String) :
    (∀ count, (intervalWorker (fun _ => true) 0 count err).2.1 = count ∧
      (intervalWorker (fun _ => true) 0 count err).2.2 = [] ∧
      (intervalWorker (fun _ => true) 0 count err).1.running = false) ∧
    (intervalWorker capSecondFails 0 3 err).1.running = false ∧
    (intervalWorker capSecondFails 0 3 err).1.remaining = 2 ∧
    (intervalWorker capSecondFails 0 3 err).1.lastError = some err ∧
    (intervalWorker capSecondFails 0 3 err).2.1 = 2 ∧
    (intervalWorker capSecondFails 0 3 err).2.2 = [] := by
  refine ⟨?_, rfl, rfl, ?_, rfl, rfl⟩
  · intro count
    refine ⟨?_, ?_, rfl⟩ <;> simp [intervalWorker, intervalLoop_allOk_zero]
  · simp [intervalWorker, capSecondFails, intervalLoop]

/-! ## Import worker (`_import_worker`, `/api/import/*`)

`_import_worker(mode, session)` reads the persisted high-water mark
(`import.json["last_index"]`), lists the camera files, selects candidates
(`new` mode keeps files with `index > last_index`, `all` keeps everything),
then for each candidate in listing order: checks the cancellation flag,
fetches the file with `gphoto2 --get-file <idx> --skip-existing`,
classifies the outcome as imported / skipped / error, tracks the maximum
successfully transferred index, and finally persists that maximum as the
new `last_index` only if it advanced and the run was not cancelled.

The camera listing is a list of `CamFile`s; the result of the `i`-th
per-file transfer is `fetch i`; `cancelAt i` tells whether the
cancellation flag is observed at the top of the `i`-th iteration. -/

/-- One entry of `_list_camera_files()`. -/
structure CamFile where
  index : Nat
  name : String
deriving DecidableEq, Repr

/-- Outcome of one `gphoto2 --get-file … --skip-existing` call, as
classified by `_import_worker`: new bytes written, file already present
(the tool's own "exists" message), or a `CalledProcessError`. -/
inductive FetchResult where
  | downloaded : FetchResult
  | existed : FetchResult
  | fetchError : String → FetchResult
deriving DecidableEq, Repr

/-- Import modes of `_import_worker`. -/
inductive ImportMode where
  | new : ImportMode
  | all : ImportMode
deriving DecidableEq, Repr

/-- Candidate selection of `_import_worker`:
`new` keeps files with index strictly greater than the persisted mark. -/
def selectFiles (mode : ImportMode) (lastIdx : Nat) (files : List CamFile) : List CamFile :=
  match mode with
  | .new => files.filter (fun f => lastIdx < f.index)
  | .all => files

/-- Mutable loop state of `_import_worker`'s per-file loop. -/
structure ImpAcc where
  done : Nat
  imported : Nat
  skipped : Nat
  errors : Nat
  maxIdx : Nat
  lastError : Option String
deriving DecidableEq, Repr

/-- The per-file loop of `_import_worker`; `i` is the iteration index.
The two cancellation checks at the top of each iteration (the
`import_cancel` event and the cleared `running` flag) are collapsed into
the single observation `cancelAt i`.  Returns the final loop state and
whether the loop was cancelled. -/
def importLoop (fetch : Nat → FetchResult) (cancelAt : Nat → Bool) :
    List CamFile → Nat → ImpAcc → ImpAcc × Bool
  | [], _, acc => (acc, false)
  | f :: rest, i, acc =>
    if cancelAt i then
      (acc, true)
    else
      match fetch i with
      | .downloaded =>
        importLoop fetch cancelAt rest (i + 1)
          { acc with
            done := acc.done + 1
            imported := acc.imported + 1
            maxIdx := max acc.maxIdx f.index }
      | .existed =>
        importLoop fetch cancelAt rest (i + 1)
          { acc with
            done := acc.done + 1
            skipped := acc.skipped + 1
            maxIdx := max acc.maxIdx f.index }
      | .fetchError msg =>
        importLoop fetch cancelAt rest (i + 1)
          { acc with
            done := acc.done + 1
            errors := acc.errors + 1
            lastError := some msg }

/-- Final observable state of one `_import_worker` run: the
`import_state` counters plus the high-water mark persisted to
`import.json` after the run. -/
structure ImportResult where
  running : Bool
  total : Nat
  done : Nat
  imported : Nat
  skipped : Nat
  errors : Nat
  lastError : Option String
  persistedLastIndex : Nat
  cancelled : Bool
deriving DecidableEq, Repr

/-- Python falsiness of `import_state["last_error"]`: `None` and `""`. -/
def pyFalsy (o : Option String) : Bool :=
  match o with
  | none => true
  | some s => s == ""

/-- `_import_worker mode session`: one full run.  `lastIdx` is the
pre-run persisted high-water mark. -/
def importWorker (mode : ImportMode) (lastIdx : Nat) (files : List CamFile)
    (fetch : Nat → FetchResult) (cancelAt : Nat → Bool) : ImportResult :=
  if files.isEmpty then
    ⟨false, 0, 0, 0, 0, 0, some "No files listed by gphoto2", lastIdx, false⟩
  else
    let selected := selectFiles mode lastIdx files
    if selected.isEmpty then
      ⟨false, 0, 0, 0, 0, 0, none, lastIdx, false⟩
    else
      let r := importLoop fetch cancelAt selected 0 ⟨0, 0, 0, 0, lastIdx, none⟩
      let acc := r.1
      let cancelled := r.2
      let persisted := if lastIdx < acc.maxIdx ∧ ¬cancelled then acc.maxIdx else lastIdx
      ⟨false, selected.length, acc.done, acc.imported, acc.skipped, acc.errors,
        (if cancelled && pyFalsy acc.lastError then some "cancelled by user" else acc.lastError),
        persisted, cancelled⟩

theorem importLoop_cancelled (fetch : Nat → FetchResult) (k : Nat) :
    ∀ (sel : List CamFile) (i : Nat) (acc : ImpAcc), i ≤ k → k - i < sel.length →
      (importLoop fetch (fun j => k ≤ j) sel i acc).2 = true ∧
      (importLoop fetch (fun j => k ≤ j) sel i acc).1.done = acc.done + (k - i) := by
  intro sel
  induction sel with
  | nil => intro i acc _ h2; simp at h2
  | cons f rest ih =>
    intro i acc h1 h2
    rcases eq_or_lt_of_le h1 with heq | hlt
    · subst heq
      simp [importLoop]
    · have hc : (decide (k ≤ i) : Bool) = false := by simp; omega
      cases hf : fetch i with
      | downloaded =>
        have hrec := ih (i + 1) { acc with
          done := acc.done + 1
          imported := acc.imported + 1
          maxIdx := max acc.maxIdx f.index } (by omega) (by simp at h2 ⊢; omega)
        simp only [importLoop, hc, hf, Bool.false_eq_true, if_false]
        exact ⟨hrec.1, by rw [hrec.2]; simp; omega⟩
      | existed =>
        have hrec := ih (i + 1) { acc with
          done := acc.done + 1
          skipped := acc.skipped + 1
          maxIdx := max acc.maxIdx f.index } (by omega) (by simp at h2 ⊢; omega)
        simp only [importLoop, hc, hf, Bool.false_eq_true, if_false]
        exact ⟨hrec.1, by rw [hrec.2]; simp; omega⟩
      | fetchError msg =>
        have hrec := ih (i + 1) { acc with
          done := acc.done + 1
          errors := acc.errors + 1
          lastError := some msg } (by omega) (by simp at h2 ⊢; omega)
        simp only [importLoop, hc, hf, Bool.false_eq_true, if_false]
        exact ⟨hrec.1, by rw [hrec.2]; simp; omega⟩

theorem importLoop_allDownloaded :
    ∀ (sel : List CamFile) (i : Nat) (acc : ImpAcc),
      importLoop (fun _ => .downloaded) (fun _ => false) sel i acc =
        ({ acc with
          done := acc.done + sel.length
          imported := acc.imported + sel.length
          maxIdx := sel.foldl (fun m f => max m f.index) acc.maxIdx }, false) := by
  intro sel
  induction sel with
  | nil => intro i acc; simp [importLoop]
  | cons f rest ih =>
    intro i acc
    simp only [importLoop, Bool.false_eq_true, if_false]
    rw [ih (i + 1)]
    simp [List.foldl_cons]
    constructor
    · omega
    · omega

theorem foldl_max_init_le :
    ∀ (l : List CamFile) (a : Nat), a ≤ l.foldl (fun m f => max m f.index) a := by
  intro l
  induction l with
  | nil => intro a; simp
  | cons f rest ih =>
    intro a
    calc a ≤ max a f.index := le_max_left _ _
    _ ≤ rest.foldl (fun m f => max m f.index) (max a f.index) := ih _

theorem foldl_max_mem_le :
    ∀ (l : List CamFile) (a : Nat) (f : CamFile), f ∈ l →
      f.index ≤ l.foldl (fun m g => max m g.index) a := by
  intro l
  induction l with
  | nil => intro a f hf; simp at hf
  | cons g rest ih =>
    intro a f hf
    rcases List.mem_cons.mp hf with heq | hmem
    · subst heq
      calc f.index ≤ max a f.index := le_max_right _ _
      _ ≤ rest.foldl (fun m g => max m g.index) (max a f.index) := foldl_max_init_le _ _
    · exact ih _ f hmem

theorem foldl_max_mem_or_init :
    ∀ (l : List CamFile) (a : Nat),
      (∃ f ∈ l, l.foldl (fun m g => max m g.index) a = f.index) ∨
        l.foldl (fun m g => max m g.index) a = a := by
  intro l
  induction l with
  | nil => intro a; right; rfl
  | cons g rest ih =>
    intro a
    rcases ih (max a g.index) with ⟨f, hfmem, hfeq⟩ | hinit
    · left
      exact ⟨f, List.mem_cons_of_mem _ hfmem, by simpa using hfeq⟩
    · rcases le_or_lt g.index a with hle | hlt
      · right
        simp only [List.foldl_cons]
        rw [max_eq_left hle] at hinit ⊢
        exact hinit
      · left
        refine ⟨g, List.mem_cons_self _ _, ?_⟩
        simp only [List.foldl_cons]
        rw [max_eq_right (le_of_lt hlt)] at hinit ⊢
        exact hinit

/-- The camera listing of the spec's import example: indices 3, 6, 7, 9. -/
def exampleListing : List CamFile :=
  [⟨3, "IMG_0003.JPG"⟩, ⟨6, "IMG_0006.JPG"⟩, ⟨7, "IMG_0007.JPG"⟩, ⟨9, "IMG_0009.JPG"⟩]

/-- **C4.** If an import job is cancelled mid-run (cancellation flag first
observed at iteration `k`, before all selected files are processed), the
persisted high-water mark stays at its pre-run value and the `done`
counter equals exactly the number of files processed before the flag was
observed. -/
theorem C4_cancelled_import (mode : ImportMode) (lastIdx : Nat) (files : List CamFile)
    (fetch : Nat → FetchResult) (k : Nat)
    (hk : k < (selectFiles mode lastIdx files).length) :
    (importWorker mode lastIdx files fetch (fun j => k ≤ j)).persistedLastIndex = lastIdx ∧
    (importWorker mode lastIdx files fetch (fun j => k ≤ j)).done = k ∧
    (importWorker mode lastIdx files fetch (fun j => k ≤ j)).cancelled = true ∧
    (importWorker mode lastIdx files fetch (fun j => k ≤ j)).running = false := by
  have hfe : files.isEmpty = false := by
    cases files with
    | nil => cases mode <;> simp [selectFiles] at hk
    | cons _ _ => rfl
  have hse : (selectFiles mode lastIdx files).isEmpty = false := by
    cases h : selectFiles mode lastIdx files with
    | nil => rw [h] at hk; simp at hk
    | cons _ _ => rfl
  have hloop := importLoop_cancelled fetch k (selectFiles mode lastIdx files) 0
    ⟨0, 0, 0, 0, lastIdx, none⟩ (by omega) (by omega)
  simp only [importWorker, hfe, hse, Bool.false_eq_true, if_false]
  refine ⟨?_, ?_, ?_, ?_⟩
  · simp [hloop.1]
  · simpa using hloop.2
  · exact hloop.1
  · trivial

/-- Witness for `C4_cancelled_import`: the spec's concrete scenario — New
mode, mark 5, listing [3,6,7,9] (3 selected files), cancelled after
processing 1 file. -/
theorem C4_cancelled_import_witness :
    (1 < (selectFiles .new 5 exampleListing).length) ∧
    ((importWorker .new 5 exampleListing (fun _ => .downloaded)
        (fun j => 1 ≤ j)).persistedLastIndex = 5 ∧
      (importWorker .new 5 exampleListing (fun _ => .downloaded)
        (fun j => 1 ≤ j)).done = 1 ∧
      (importWorker .new 5 exampleListing (fun _ => .downloaded)
        (fun j => 1 ≤ j)).cancelled = true ∧
      (importWorker .new 5 exampleListing (fun _ => .downloaded)
        (fun j => 1 ≤ j)).running = false) :=
  ⟨by decide, C4_cancelled_import .new 5 exampleListing (fun _ => .downloaded) 1 (by decide)⟩

/-- **C5.** New mode selects exactly the files with index strictly greater
than the persisted high-water mark, All mode selects every listed file;
a run that completes without cancellation with every transfer succeeding
persists the maximum index among the processed (selected) files.  In the
spec's example (mark 5, listing [3,6,7,9]): selected = [6,7,9] and the
persisted mark afterwards is 9. -/
theorem C5_selection_and_mark (lastIdx : Nat) (files : List CamFile)
    (hne : selectFiles .new lastIdx files ≠ []) :
    (∀ f, f ∈ selectFiles .new lastIdx files ↔ f ∈ files ∧ lastIdx < f.index) ∧
    (∀ (m : Nat) (g : List CamFile), selectFiles .all m g = g) ∧
    (∃ f ∈ selectFiles .new lastIdx files,
      (importWorker .new lastIdx files (fun _ => .downloaded)
        (fun _ => false)).persistedLastIndex = f.index) ∧
    (∀ f ∈ selectFiles .new lastIdx files,
      f.index ≤ (importWorker .new lastIdx files (fun _ => .downloaded)
        (fun _ => false)).persistedLastIndex) ∧
    (importWorker .new lastIdx files (fun _ => .downloaded)
      (fun _ => false)).cancelled = false ∧
    (importWorker .new lastIdx files (fun _ => .downloaded)
      (fun _ => false)).errors = 0 ∧
    (selectFiles .new 5 exampleListing).map CamFile.index = [6, 7, 9] ∧
    (importWorker .new 5 exampleListing (fun _ => .downloaded)
      (fun _ => false)).persistedLastIndex = 9 ∧
    (importWorker .new 5 exampleListing (fun _ => .downloaded)
      (fun _ => false)).total = 3 := by
  have hfe : files.isEmpty = false := by
    cases files with
    | nil => simp [selectFiles] at hne
    | cons _ _ => rfl
  have hse : (selectFiles ImportMode.new lastIdx files).isEmpty = false := by
    cases h : selectFiles ImportMode.new lastIdx files with
    | nil => exact absurd h hne
    | cons _ _ => rfl
  obtain ⟨f0, hf0⟩ : ∃ f, f ∈ selectFiles ImportMode.new lastIdx files := by
    cases h : selectFiles ImportMode.new lastIdx files with
    | nil => exact absurd h hne
    | cons a l => exact ⟨a, h ▸ List.mem_cons_self a l⟩
  have hgt : ∀ f ∈ selectFiles ImportMode.new lastIdx files, lastIdx < f.index := by
    intro f hf
    simp [selectFiles, List.mem_filter] at hf
    exact hf.2
  have hltm : lastIdx <
      (selectFiles ImportMode.new lastIdx files).foldl (fun m g => max m g.index) lastIdx :=
    lt_of_lt_of_le (hgt f0 hf0) (foldl_max_mem_le _ _ _ hf0)
  have hloop := importLoop_allDownloaded (selectFiles ImportMode.new lastIdx files) 0
    ⟨0, 0, 0, 0, lastIdx, none⟩
  have hpers : (importWorker ImportMode.new lastIdx files (fun _ => .downloaded)
      (fun _ => false)).persistedLastIndex =
      (selectFiles ImportMode.new lastIdx files).foldl (fun m g => max m g.index) lastIdx := by
    simp only [importWorker, hfe, hse, Bool.false_eq_true, if_false]
    rw [hloop]
    simp [hltm]
  refine ⟨?_, ?_, ?_, ?_, ?_, ?_, ?_, ?_, ?_⟩
  · intro f
    simp [selectFiles, List.mem_filter]
  · intro m g
    rfl
  · rw [hpers]
    rcases foldl_max_mem_or_init (selectFiles ImportMode.new lastIdx files) lastIdx with
      ⟨f, hfmem, hfeq⟩ | hinit
    · exact ⟨f, hfmem, hfeq⟩
    · omega
  · intro f hf
    rw [hpers]
    exact foldl_max_mem_le _ _ _ hf
  · simp only [importWorker, hfe, hse, Bool.false_eq_true, if_false]
    rw [hloop]
  · simp only [importWorker, hfe, hse, Bool.false_eq_true, if_false]
    rw [hloop]
  · decide
  · decide
  · decide

/-- Witness for `C5_selection_and_mark` at the spec's example input
(mark 5, listing with indices [3,6,7,9]). -/
theorem C5_selection_and_mark_witness :
    (selectFiles .new 5 exampleListing ≠ []) ∧
    ((∀ f, f ∈ selectFiles .new 5 exampleListing ↔ f ∈ exampleListing ∧ 5 < f.index) ∧
      (∀ (m : Nat) (g : List CamFile), selectFiles .all m g = g) ∧
      (∃ f ∈ selectFiles .new 5 exampleListing,
        (importWorker .new 5 exampleListing (fun _ => .downloaded)
          (fun _ => false)).persistedLastIndex = f.index) ∧
      (∀ f ∈ selectFiles .new 5 exampleListing,
        f.index ≤ (importWorker .new 5 exampleListing (fun _ => .downloaded)
          (fun _ => false)).persistedLastIndex) ∧
      (importWorker .new 5 exampleListing (fun _ => .downloaded)
        (fun _ => false)).cancelled = false ∧
      (importWorker .new 5 exampleListing (fun _ => .downloaded)
        (fun _ => false)).errors = 0 ∧
      (selectFiles .new 5 exampleListing).map CamFile.index = [6, 7, 9] ∧
      (importWorker .new 5 exampleListing (fun _ => .downloaded)
        (fun _ => false)).persistedLastIndex = 9 ∧
      (importWorker .new 5 exampleListing (fun _ => .downloaded)
        (fun _ => false)).total = 3) :=
  ⟨by decide, C5_selection_and_mark 5 exampleListing (by decide)⟩

/-! ## MJPEG frame demuxer (`live_stream`)

The generator of `/live_stream.mjpg` maintains a byte buffer `buf` and, for
each chunk read from the `gphoto2 --capture-movie --stdout` subprocess,
appends the chunk and then repeatedly:

```
start = buf.find(b"\xff\xd8")            # SOI
if start == -1: buf = buf[-3:]; break
end = buf.find(b"\xff\xd9", start + 2)   # EOI
if end == -1: buf = buf[start:]; break
frame = buf[start:end + 2]; buf = buf[end + 2:]; yield frame
```

Bytes are `Nat` values (`0xFF = 255`, `0xD8 = 216`, `0xD9 = 217`).
`findSeq a b l` is `bytes.find` for the two-byte pattern `a b` (index of
the first occurrence), `lastN 3` is `buf[-3:]`, and `demuxStepF` is the
inner `while True` loop (fueled; `demuxBuf` supplies sufficient fuel). -/

/-- `bytes.find(pat)` for a two-byte pattern `[a, b]`: index of the first
occurrence, or `none`. -/
def findSeq (a b : Nat) : List Nat → Option Nat
  | x :: y :: r => if x = a ∧ y = b then some 0 else (findSeq a b (y :: r)).map (· + 1)
  | _ => none

/-- `buf[-n:]`. -/
def lastN (n : Nat) (l : List Nat) : List Nat := l.drop (l.length - n)

/-- The inner frame-extraction loop of `live_stream`, with explicit fuel
(one unit per emitted frame; `l.length` is always enough).  Returns the
emitted frames and the final buffer. -/
def demuxStepF : Nat → List Nat → List (List Nat) × List Nat
  | 0, l => ([], l)
  | fuel + 1, l =>
    match findSeq 255 216 l with
    | none => ([], lastN 3 l)
    | some s =>
      match findSeq 255 217 (l.drop (s + 2)) with
      | none => ([], l.drop s)
      | some e0 =>
        let p := demuxStepF fuel (l.drop (s + e0 + 4))
        ((l.drop s).take (e0 + 4) :: p.1, p.2)

/-- The inner loop with the canonical (always sufficient) fuel. -/
def demuxBuf (l : List Nat) : List (List Nat) × List Nat :=
  demuxStepF l.length l

/-- Processing one chunk: append it to the pending buffer and run the
frame-extraction loop, accumulating emitted frames. -/
def feedChunk (st : List (List Nat) × List Nat) (c : List Nat) :
    List (List Nat) × List Nat :=
  (st.1 ++ (demuxBuf (st.2 ++ c)).1, (demuxBuf (st.2 ++ c)).2)

/-- All frames emitted by the `live_stream` generator over a whole
sequence of chunks (the final incomplete buffer is discarded when the
byte source closes). -/
def demuxChunks (cs : List (List Nat)) : List (List Nat) :=
  (cs.foldl feedChunk ([], [])).1

theorem findSeq_some_bound (a b : Nat) :
    ∀ (l : List Nat) (s : Nat), findSeq a b l = some s → s + 1 < l.length := by
  intro l
  induction l with
  | nil => intro s h; simp [findSeq] at h
  | cons x t ih =>
    intro s h
    cases t with
    | nil => simp [findSeq] at h
    | cons y r =>
      by_cases hp : x = a ∧ y = b
      · simp [findSeq, hp] at h
        subst h
        simp
      · simp [findSeq, hp] at h
        obtain ⟨s', hs', rfl⟩ := h
        have := ih s' hs'
        simp at this ⊢
        omega

theorem findSeq_append_some (a b : Nat) :
    ∀ (l v : List Nat) (s : Nat), findSeq a b l = some s →
      findSeq a b (l ++ v) = some s := by
  intro l
  induction l with
  | nil => intro v s h; simp [findSeq] at h
  | cons x t ih =>
    intro v s h
    cases t with
    | nil => simp [findSeq] at h
    | cons y r =>
      by_cases hp : x = a ∧ y = b
      · simp [findSeq, hp] at h ⊢
        exact h
      · simp [findSeq, hp] at h ⊢
        obtain ⟨s', hs', rfl⟩ := h
        exact ⟨s', ih v s' hs', rfl⟩

theorem findSeq_tail_none (a b : Nat) (l : List Nat) (h : findSeq a b l = none) :
    findSeq a b l.tail = none := by
  cases l with
  | nil => rfl
  | cons x t =>
    cases t with
    | nil => rfl
    | cons y r =>
      by_cases hp : x = a ∧ y = b
      · simp [findSeq, hp] at h
      · simp [findSeq, hp] at h
        simp [h]

theorem findSeq_drop_none (a b : Nat) (l : List Nat) (h : findSeq a b l = none) :
    ∀ n, findSeq a b (l.drop n) = none := by
  intro n
  induction n with
  | zero => simpa using h
  | succ m ih =>
    rw [← List.tail_drop]
    exact findSeq_tail_none a b _ ih

theorem findSeq_some_drop (a b : Nat) :
    ∀ (l : List Nat) (s : Nat), findSeq a b l = some s →
      l.drop s = a :: b :: l.drop (s + 2) := by
  intro l
  induction l with
  | nil => intro s h; simp [findSeq] at h
  | cons x t ih =>
    intro s h
    cases t with
    | nil => simp [findSeq] at h
    | cons y r =>
      by_cases hp : x = a ∧ y = b
      · simp [findSeq, hp] at h
        subst h
        simp [hp.1, hp.2]
      · simp [findSeq, hp] at h
        obtain ⟨s', hs', rfl⟩ := h
        simpa using ih s' hs'

theorem findSeq_append_shift (a b : Nat) :
    ∀ (u w : List Nat), findSeq a b (u ++ w) = none → w ≠ [] →
      ∀ y, findSeq a b (u ++ (w ++ y)) =
        (findSeq a b (w ++ y)).map (· + u.length) := by
  intro u
  induction u with
  | nil =>
    intro w _ _ y
    simp
  | cons c u' ih =>
    intro w hnone hw y
    cases hz : u' ++ w with
    | nil => exact absurd (List.append_eq_nil.mp hz).2 hw
    | cons z zs =>
      have hcons : c :: u' ++ w = c :: z :: zs := by
        simp [hz]
      rw [hcons] at hnone
      by_cases hp : c = a ∧ z = b
      · simp [findSeq, hp] at hnone
      · simp only [findSeq, hp, if_false] at hnone
        have htail : findSeq a b (u' ++ w) = none := by
          rw [hz]
          cases hfs : findSeq a b (z :: zs) with
          | none => rfl
          | some t => rw [hfs] at hnone; simp at hnone
        have hrec := ih w htail hw y
        have hz2 : u' ++ (w ++ y) = z :: (zs ++ y) := by
          rw [← List.append_assoc, hz]
          simp
        have hgoal : c :: u' ++ (w ++ y) = c :: z :: (zs ++ y) := by
          simp [hz2]
        rw [hgoal]
        rw [findSeq]
        rw [if_neg hp]
        rw [← hz2, hrec]
        cases findSeq a b (w ++ y) with
        | none => simp
        | some t =>
          simp [List.length_cons]
          omega

theorem length_lastN (n : Nat) (l : List Nat) : (lastN n l).length = min n l.length := by
  simp [lastN]
  omega

theorem lastN_of_length_le (n : Nat) (l : List Nat) (h : l.length ≤ n) : lastN n l = l := by
  simp [lastN, Nat.sub_eq_zero_of_le h]

theorem lastN_append (u v : List Nat) (h : 3 ≤ v.length) :
    lastN 3 (u ++ v) = lastN 3 v := by
  unfold lastN
  have h1 : (u ++ v).length - 3 = u.length + (v.length - 3) := by
    simp
    omega
  rw [h1, List.drop_append]

theorem demuxStepF_eq_of_le :
    ∀ (n : Nat) (l : List Nat) (f : Nat), l.length = n → n ≤ f →
      demuxStepF f l = demuxStepF n l := by
  intro n
  induction n using Nat.strong_induction_on with
  | _ n ih =>
    intro l f hlen hf
    cases f with
    | zero =>
      have : n = 0 := by omega
      subst this
      rfl
    | succ f' =>
      cases n with
      | zero =>
        have : l = [] := List.length_eq_zero.mp hlen
        subst this
        simp [demuxStepF, findSeq, lastN]
      | succ n' =>
        cases hs : findSeq 255 216 l with
        | none => simp [demuxStepF, hs]
        | some s =>
          cases he : findSeq 255 217 (l.drop (s + 2)) with
          | none => simp [demuxStepF, hs, he]
          | some e0 =>
            simp only [demuxStepF, hs, he]
            have hsb := findSeq_some_bound 255 216 l s hs
            have hlen1 : (l.drop (s + e0 + 4)).length = l.length - (s + e0 + 4) := by
              simp
            have hm : (l.drop (s + e0 + 4)).length < n' + 1 := by
              rw [hlen1]; omega
            have hrec1 : demuxStepF f' (l.drop (s + e0 + 4)) =
                demuxStepF (l.drop (s + e0 + 4)).length (l.drop (s + e0 + 4)) :=
              ih _ hm _ f' rfl (by rw [hlen1]; omega)
            have hrec2 : demuxStepF n' (l.drop (s + e0 + 4)) =
                demuxStepF (l.drop (s + e0 + 4)).length (l.drop (s + e0 + 4)) :=
              ih _ hm _ n' rfl (by rw [hlen1]; omega)
            rw [hrec1, hrec2]

theorem demuxBuf_none (l : List Nat) (h : findSeq 255 216 l = none) :
    demuxBuf l = ([], lastN 3 l) := by
  cases l with
  | nil => simp [demuxBuf, demuxStepF, lastN]
  | cons x t => simp [demuxBuf, demuxStepF, h]

theorem demuxBuf_noEOI (l : List Nat) (s : Nat) (hs : findSeq 255 216 l = some s)
    (he : findSeq 255 217 (l.drop (s + 2)) = none) :
    demuxBuf l = ([], l.drop s) := by
  cases l with
  | nil => simp [findSeq] at hs
  | cons x t =>
    show demuxStepF (t.length + 1) (x :: t) = _
    simp only [demuxStepF, hs, he]

theorem demuxBuf_frame (l : List Nat) (s e0 : Nat) (hs : findSeq 255 216 l = some s)
    (he : findSeq 255 217 (l.drop (s + 2)) = some e0) :
    demuxBuf l = ((l.drop s).take (e0 + 4) :: (demuxBuf (l.drop (s + e0 + 4))).1,
      (demuxBuf (l.drop (s + e0 + 4))).2) := by
  cases l with
  | nil => simp [findSeq] at hs
  | cons x t =>
    have hsb := findSeq_some_bound 255 216 (x :: t) s hs
    show demuxStepF (t.length + 1) (x :: t) = _
    simp only [demuxStepF, hs, he]
    have hstep : demuxStepF t.length ((x :: t).drop (s + e0 + 4)) =
        demuxStepF ((x :: t).drop (s + e0 + 4)).length ((x :: t).drop (s + e0 + 4)) :=
      demuxStepF_eq_of_le ((x :: t).drop (s + e0 + 4)).length _ t.length rfl (by simp)
    rw [hstep]
    rfl

theorem demuxBuf_drop_soi (l : List Nat) (s : Nat) (hs : findSeq 255 216 l = some s) :
    demuxBuf l = demuxBuf (l.drop s) := by
  have hd := findSeq_some_drop 255 216 l s hs
  have hs0 : findSeq 255 216 (l.drop s) = some 0 := by
    rw [hd]
    simp [findSeq]
  have hdd : (l.drop s).drop 2 = l.drop (s + 2) := by
    rw [List.drop_drop]
  cases he : findSeq 255 217 (l.drop (s + 2)) with
  | none =>
    have he0 : findSeq 255 217 ((l.drop s).drop (0 + 2)) = none := by
      simpa [hdd] using he
    rw [demuxBuf_noEOI l s hs he, demuxBuf_noEOI (l.drop s) 0 hs0 he0]
    simp
  | some e0 =>
    have he0 : findSeq 255 217 ((l.drop s).drop (0 + 2)) = some e0 := by
      simpa [hdd] using he
    rw [demuxBuf_frame l s e0 hs he, demuxBuf_frame (l.drop s) 0 e0 hs0 he0]
    have harg : (l.drop s).drop (0 + e0 + 4) = l.drop (s + e0 + 4) := by
      rw [List.drop_drop]
      congr 1
      omega
    rw [harg]
    simp

theorem demuxBuf_append_truncate (x : List Nat) (hx : findSeq 255 216 x = none)
    (y : List Nat) : demuxBuf (x ++ y) = demuxBuf (lastN 3 x ++ y) := by
  rcases le_or_lt x.length 3 with hle | hgt
  · rw [lastN_of_length_le 3 x hle]
  · have hw : lastN 3 x = x.drop (x.length - 3) := rfl
    have hsplit : x.take (x.length - 3) ++ lastN 3 x = x := by
      rw [hw]
      exact List.take_append_drop _ x
    have hwlen : (lastN 3 x).length = 3 := by
      rw [length_lastN]
      omega
    have hwne : lastN 3 x ≠ [] := by
      intro h
      rw [h] at hwlen
      simp at hwlen
    have hshift := findSeq_append_shift 255 216 (x.take (x.length - 3)) (lastN 3 x)
      (by rw [hsplit]; exact hx) hwne y
    have hxy : x ++ y = x.take (x.length - 3) ++ (lastN 3 x ++ y) := by
      rw [← List.append_assoc, hsplit]
    cases hfw : findSeq 255 216 (lastN 3 x ++ y) with
    | none =>
      have h1 : findSeq 255 216 (x ++ y) = none := by
        rw [hxy, hshift, hfw]
        rfl
      rw [demuxBuf_none _ h1, demuxBuf_none _ hfw]
      have hl3 : lastN 3 (x ++ y) = lastN 3 (lastN 3 x ++ y) := by
        rw [hxy]
        exact lastN_append _ _ (by simp [hwlen])
      rw [hl3]
    | some t =>
      have h1 : findSeq 255 216 (x ++ y) = some (t + (x.take (x.length - 3)).length) := by
        rw [hxy, hshift, hfw]
        rfl
      rw [demuxBuf_drop_soi _ _ h1, demuxBuf_drop_soi _ _ hfw]
      have hdr : (x ++ y).drop (t + (x.take (x.length - 3)).length) =
          (lastN 3 x ++ y).drop t := by
        rw [hxy]
        have hc : t + (x.take (x.length - 3)).length =
            (x.take (x.length - 3)).length + t := by omega
        rw [hc, List.drop_append]
      rw [hdr]

theorem demuxBuf_append_aux :
    ∀ (n : Nat) (x : List Nat), x.length ≤ n → ∀ b,
      demuxBuf (x ++ b) =
        ((demuxBuf x).1 ++ (demuxBuf ((demuxBuf x).2 ++ b)).1,
          (demuxBuf ((demuxBuf x).2 ++ b)).2) := by
  intro n
  induction n with
  | zero =>
    intro x hx b
    have : x = [] := List.length_eq_zero.mp (by omega)
    subst this
    simp [demuxBuf, demuxStepF]
  | succ n ih =>
    intro x hx b
    cases hs : findSeq 255 216 x with
    | none =>
      rw [demuxBuf_none x hs, demuxBuf_append_truncate x hs b]
      simp
    | some s =>
      have hsb := findSeq_some_bound 255 216 x s hs
      have hs1 : findSeq 255 216 (x ++ b) = some s := findSeq_append_some 255 216 x b s hs
      cases he : findSeq 255 217 (x.drop (s + 2)) with
      | none =>
        rw [demuxBuf_noEOI x s hs he, demuxBuf_drop_soi (x ++ b) s hs1]
        have hdr : (x ++ b).drop s = x.drop s ++ b :=
          List.drop_append_of_le_length (by omega)
        rw [hdr]
        simp
      | some e0 =>
        have heb := findSeq_some_bound 255 217 (x.drop (s + 2)) e0 he
        have hlen2 : (x.drop (s + 2)).length = x.length - (s + 2) := by simp
        have hse : s + e0 + 4 ≤ x.length := by omega
        have hdr2 : (x ++ b).drop (s + 2) = x.drop (s + 2) ++ b :=
          List.drop_append_of_le_length (by omega)
        have he1 : findSeq 255 217 ((x ++ b).drop (s + 2)) = some e0 := by
          rw [hdr2]
          exact findSeq_append_some 255 217 _ b e0 he
        rw [demuxBuf_frame x s e0 hs he, demuxBuf_frame (x ++ b) s e0 hs1 he1]
        have hfr : ((x ++ b).drop s).take (e0 + 4) = (x.drop s).take (e0 + 4) := by
          rw [List.drop_append_of_le_length (by omega)]
          exact List.take_append_of_le_length (by simp; omega)
        have hdr3 : (x ++ b).drop (s + e0 + 4) = x.drop (s + e0 + 4) ++ b :=
          List.drop_append_of_le_length hse
        have hrec := ih (x.drop (s + e0 + 4)) (by simp; omega) b
        rw [hfr, hdr3, hrec]
        simp

/-- Feeding `x ++ b` into the frame-extraction loop is the same as feeding
`x` and then feeding the leftover buffer together with `b`. -/
theorem demuxBuf_append (x b : List Nat) :
    demuxBuf (x ++ b) =
      ((demuxBuf x).1 ++ (demuxBuf ((demuxBuf x).2 ++ b)).1,
        (demuxBuf ((demuxBuf x).2 ++ b)).2) :=
  demuxBuf_append_aux x.length x le_rfl b

theorem demuxBuf_residue_aux :
    ∀ (n : Nat) (l : List Nat), l.length ≤ n →
      demuxBuf (demuxBuf l).2 = ([], (demuxBuf l).2) := by
  intro n
  induction n with
  | zero =>
    intro l hl
    have : l = [] := List.length_eq_zero.mp (by omega)
    subst this
    rfl
  | succ n ih =>
    intro l hl
    cases hs : findSeq 255 216 l with
    | none =>
      rw [demuxBuf_none l hs]
      have h2 : findSeq 255 216 (lastN 3 l) = none :=
        findSeq_drop_none 255 216 l hs _
      rw [demuxBuf_none _ h2]
      have : lastN 3 (lastN 3 l) = lastN 3 l :=
        lastN_of_length_le _ _ (by rw [length_lastN]; omega)
      rw [this]
    | some s =>
      have hd := findSeq_some_drop 255 216 l s hs
      cases he : findSeq 255 217 (l.drop (s + 2)) with
      | none =>
        rw [demuxBuf_noEOI l s hs he]
        have hs0 : findSeq 255 216 (l.drop s) = some 0 := by
          rw [hd]
          simp [findSeq]
        have he0 : findSeq 255 217 ((l.drop s).drop (0 + 2)) = none := by
          rw [List.drop_drop]
          simpa using he
        rw [demuxBuf_noEOI (l.drop s) 0 hs0 he0]
        simp
      | some e0 =>
        have hsb := findSeq_some_bound 255 216 l s hs
        rw [demuxBuf_frame l s e0 hs he]
        exact ih (l.drop (s + e0 + 4)) (by simp; omega)

/-- The leftover buffer is stable: running the loop on it again emits no
frame and leaves it unchanged. -/
theorem demuxBuf_residue (l : List Nat) :
    demuxBuf (demuxBuf l).2 = ([], (demuxBuf l).2) :=
  demuxBuf_residue_aux l.length l le_rfl

theorem demuxChunks_foldl :
    ∀ (cs : List (List Nat)) (fs : List (List Nat)) (b : List Nat),
      demuxBuf b = ([], b) →
      cs.foldl feedChunk (fs, b) =
        (fs ++ (demuxBuf (b ++ cs.flatten)).1, (demuxBuf (b ++ cs.flatten)).2) := by
  intro cs
  induction cs with
  | nil =>
    intro fs b hb
    simp [hb]
  | cons c cs' ih =>
    intro fs b hb
    have hstep : List.foldl feedChunk (fs, b) (c :: cs') =
        List.foldl feedChunk
          (fs ++ (demuxBuf (b ++ c)).1, (demuxBuf (b ++ c)).2) cs' := rfl
    rw [hstep, ih _ _ (demuxBuf_residue (b ++ c))]
    have hjoin : b ++ (c :: cs').flatten = (b ++ c) ++ cs'.flatten := by
      simp
    rw [hjoin, demuxBuf_append (b ++ c) cs'.flatten]
    simp

/-- The frames emitted over any chunking are the frames of the
concatenated byte stream. -/
theorem demuxChunks_eq_join (cs : List (List Nat)) :
    demuxChunks cs = (demuxBuf cs.flatten).1 := by
  unfold demuxChunks
  rw [demuxChunks_foldl cs [] [] rfl]
  simp

theorem demuxBuf_frames_shape_aux :
    ∀ (n : Nat) (l : List Nat), l.length ≤ n →
      ∀ f ∈ (demuxBuf l).1, ∃ body, f = 255 :: 216 :: (body ++ [255, 217]) := by
  intro n
  induction n with
  | zero =>
    intro l hl f hf
    have : l = [] := List.length_eq_zero.mp (by omega)
    subst this
    simp [demuxBuf, demuxStepF] at hf
  | succ n ih =>
    intro l hl f hf
    cases hs : findSeq 255 216 l with
    | none =>
      rw [demuxBuf_none l hs] at hf
      simp at hf
    | some s =>
      cases he : findSeq 255 217 (l.drop (s + 2)) with
      | none =>
        rw [demuxBuf_noEOI l s hs he] at hf
        simp at hf
      | some e0 =>
        have hsb := findSeq_some_bound 255 216 l s hs
        rw [demuxBuf_frame l s e0 hs he] at hf
        rcases List.mem_cons.mp hf with heq | hmem
        · subst heq
          have hd := findSeq_some_drop 255 216 l s hs
          have hdd := findSeq_some_drop 255 217 (l.drop (s + 2)) e0 he
          refine ⟨(l.drop (s + 2)).take e0, ?_⟩
          have htk : (l.drop (s + 2)).take (e0 + 2) =
              (l.drop (s + 2)).take e0 ++ [255, 217] := by
            rw [List.take_add, hdd]
            rfl
          have h4 : e0 + 4 = e0 + 2 + 1 + 1 := by omega
          rw [hd, h4, List.take_succ_cons, List.take_succ_cons, htk]
        · exact ih (l.drop (s + e0 + 4)) (by simp; omega) f hmem

/-- **C6.** For every byte stream and every way of splitting it into
chunks, the MJPEG demuxer emits the same sequence of frames, each frame
running from a Start-Of-Image marker `FF D8` through the next End-Of-Image
marker `FF D9` inclusive; the two-frame example yields the same two frames
whether fed as one chunk or one byte per chunk, and a trailing incomplete
frame at stream close is discarded without error. -/
theorem C6_mjpeg_demuxer :
    (∀ cs ds : List (List Nat), cs.flatten = ds.flatten →
      demuxChunks cs = demuxChunks ds) ∧
    (∀ cs, ∀ f ∈ demuxChunks cs, ∃ body, f = 255 :: 216 :: (body ++ [255, 217])) ∧
    demuxChunks [[255, 216, 65, 65, 65, 255, 217] ++ [255, 216, 66, 66, 66, 255, 217]] =
      [[255, 216, 65, 65, 65, 255, 217], [255, 216, 66, 66, 66, 255, 217]] ∧
    demuxChunks (([255, 216, 65, 65, 65, 255, 217] ++
        [255, 216, 66, 66, 66, 255, 217]).map (fun x => [x])) =
      [[255, 216, 65, 65, 65, 255, 217], [255, 216, 66, 66, 66, 255, 217]] ∧
    demuxChunks [[255, 216, 65, 65, 65, 255, 217], [255, 216, 66, 66]] =
      [[255, 216, 65, 65, 65, 255, 217]] := by
  refine ⟨?_, ?_, by decide, by decide, by decide⟩
  · intro cs ds h
    rw [demuxChunks_eq_join, demuxChunks_eq_join, h]
  · intro cs f hf
    rw [demuxChunks_eq_join] at hf
    exact demuxBuf_frames_shape_aux cs.flatten.length cs.flatten le_rfl f hf

/-! ## Lock / device-subprocess / sleep traces (`cam_lock`)

Each device-touching operation of `server.py` is abstracted to the
sequence of atomic actions it performs: acquiring/releasing `cam_lock`,
starting/finishing a gphoto2 subprocess, and sleeping.  The traces below
are read off the source:

* `/capture` (`capture`): everything — cooldown sleep, live-view stop,
  `_capture_one` with its retry — happens inside `with cam_lock:`;
* `_interval_worker`: each capture tick is `with cam_lock: _capture_one()`;
* `_gp_get_config_safe` / `_list_camera_files` / `_storage_info` /
  `live_frame` / `/testshot.jpg` / `/api/config/set`: one gphoto2 call
  under `cam_lock`;
* `_pull_latest_from_camera_for_preview`: the lock is taken per attempt,
  and the 0.8 s retry sleep happens *outside* the lock;
* `_import_worker`'s per-file `gphoto2 --get-file`: **no** `cam_lock`;
* `live_stream`: `subprocess.Popen(["gphoto2", "--capture-movie", …])`
  is issued without `cam_lock`. -/

/-- Atomic actions: `cam_lock` acquire/release, gphoto2 subprocess
begin/end, `time.sleep` (milliseconds). -/
inductive Act where
  | acq : Act
  | rel : Act
  | devB : Act
  | devE : Act
  | slp : Nat → Act
deriving DecidableEq, Repr

/-- `MIN_CAPTURE_GAP = 1.2` seconds. -/
def minCaptureGapMs : Nat := 1200

/-- The gphoto2 calls of one `_capture_one` invocation: one capture
subprocess, plus — when the first attempt fails transiently — a 0.6 s
sleep and the retry subprocess. -/
def captureOneActs (firstAttemptTransient : Bool) : List Act :=
  if firstAttemptTransient then
    [.devB, .devE, .slp captureDelayMs, .devB, .devE]
  else
    [.devB, .devE]

/-- The `/capture` endpoint: under `cam_lock`, sleep the remaining
cooldown when the previous capture was less than 1.2 s ago, stop a
running live-view hold (one `_set_liveview(False)` gphoto2 call), then
run `_capture_one`. -/
def captureEndpointActs (deltaMs : Nat) (holdRunning firstAttemptTransient : Bool) :
    List Act :=
  [.acq] ++
    (if deltaMs < minCaptureGapMs then [.slp (minCaptureGapMs - deltaMs)] else []) ++
    (if holdRunning then [.devB, .devE] else []) ++
    captureOneActs firstAttemptTransient ++ [.rel]

/-- One capture tick of `_interval_worker`: `with cam_lock: _capture_one()`. -/
def intervalTickActs (firstAttemptTransient : Bool) : List Act :=
  [.acq] ++ captureOneActs firstAttemptTransient ++ [.rel]

/-- One locked single-call gphoto2 operation (`_gp_get_config_safe`,
`_list_camera_files`, `_storage_info`, `live_frame`, `/testshot.jpg`,
`/api/config/set`). -/
def lockedGpCallActs : List Act := [.acq, .devB, .devE, .rel]

/-- One `_pull_latest_from_camera_for_preview` fetch: the lock is held per
attempt and the 0.8 s retry sleep happens after releasing it. -/
def previewSyncActs (firstAttemptTransient : Bool) : List Act :=
  if firstAttemptTransient then
    [.acq, .devB, .devE, .rel, .slp previewSyncDelayMs, .acq, .devB, .devE, .rel]
  else
    [.acq, .devB, .devE, .rel]

/-- One per-file `gphoto2 --get-file` of `_import_worker`: issued with no
`cam_lock` around it. -/
def importFetchActs : List Act := [.devB, .devE]

/-- The `live_stream` generator starting the `gphoto2 --capture-movie`
subprocess: no `cam_lock`; the subprocess stays alive until stopped. -/
def movieStreamStartActs : List Act := [.devB]

/-- One thread: the actions it still has to perform, whether it holds
`cam_lock`, and whether one of its gphoto2 subprocesses is in flight. -/
structure Th where
  rest : List Act
  holds : Bool
  inDev : Bool
deriving DecidableEq, Repr

/-- `cam_lock` is free iff no thread holds it. -/
def lockFree (ts : List Th) : Bool := ts.all (fun t => !t.holds)

/-- Execute the next action of one thread (`free` says whether the lock is
currently free); `none` when the thread is blocked or finished. -/
def stepTh (free : Bool) (t : Th) : Option Th :=
  match t.rest with
  | [] => none
  | .acq :: r => if free then some ⟨r, true, t.inDev⟩ else none
  | .rel :: r => if t.holds then some ⟨r, false, t.inDev⟩ else none
  | .devB :: r => some ⟨r, t.holds, true⟩
  | .devE :: r => if t.inDev then some ⟨r, t.holds, false⟩ else none
  | .slp _ :: r => some ⟨r, t.holds, t.inDev⟩

def stepAt (free : Bool) : List Th → Nat → Option (List Th)
  | [], _ => none
  | t :: ts, 0 => (stepTh free t).map (· :: ts)
  | t :: ts, i + 1 => (stepAt free ts i).map (t :: ·)

/-- One scheduler step: thread `i` executes its next action. -/
def step (ts : List Th) (i : Nat) : Option (List Th) :=
  stepAt (lockFree ts) ts i

/-- Run a schedule (a list of thread indices). -/
def run : List Th → List Nat → Option (List Th)
  | ts, [] => some ts
  | ts, i :: sched =>
    match step ts i with
    | none => none
    | some ts' => run ts' sched

/-- Number of gphoto2 device subprocesses currently in flight. -/
def inFlight (ts : List Th) : Nat := ts.countP (·.inDev)

/-- Initial thread pool: each operation at the start of its trace. -/
def startThreads (ops : List (List Act)) : List Th :=
  ops.map (fun a => ⟨a, false, false⟩)

/-- A trace is well-locked (continuing from lock state `holds`, device
state `inDev`) when every device subprocess runs strictly inside a
`cam_lock` critical section. -/
def wlFrom : Bool → Bool → List Act → Bool
  | _, inDev, [] => !inDev
  | holds, inDev, .acq :: r => !holds && !inDev && wlFrom true inDev r
  | holds, inDev, .rel :: r => holds && !inDev && wlFrom false inDev r
  | holds, inDev, .devB :: r => holds && !inDev && wlFrom holds true r
  | holds, inDev, .devE :: r => inDev && wlFrom holds false r
  | holds, inDev, .slp _ :: r => wlFrom holds inDev r

/-- A whole operation keeps its gphoto2 subprocess inside `cam_lock`. -/
def wellLocked (a : List Act) : Bool := wlFrom false false a

theorem stepTh_preserves (free : Bool) (t t' : Th)
    (hstep : stepTh free t = some t')
    (hwl : wlFrom t.holds t.inDev t.rest = true)
    (hdh : t.inDev = true → t.holds = true) :
    wlFrom t'.holds t'.inDev t'.rest = true ∧
    (t'.inDev = true → t'.holds = true) ∧
    (t'.holds = true → t.holds = true ∨ free = true) := by
  obtain ⟨rest, holds, inDev⟩ := t
  cases rest with
  | nil => simp [stepTh] at hstep
  | cons a r =>
    cases a with
    | acq =>
      obtain ⟨⟨hh, hd⟩, hwl'⟩ :
          (holds = false ∧ inDev = false) ∧ wlFrom true inDev r = true := by
        simpa [wlFrom, Bool.and_eq_true] using hwl
      simp only [stepTh] at hstep
      by_cases hfree : free = true
      · rw [if_pos hfree] at hstep
        cases hstep
        refine ⟨hwl', fun _ => rfl, fun _ => Or.inr hfree⟩
      · rw [if_neg (by simpa using hfree)] at hstep
        cases hstep
    | rel =>
      obtain ⟨⟨hh, hd⟩, hwl'⟩ :
          (holds = true ∧ inDev = false) ∧ wlFrom false inDev r = true := by
        simpa [wlFrom, Bool.and_eq_true] using hwl
      simp only [stepTh] at hstep
      rw [if_pos (by simpa using hh)] at hstep
      cases hstep
      refine ⟨hwl', ?_, ?_⟩
      · intro hin
        simp at hin
        rw [hd] at hin
        cases hin
      · intro h
        simp at h
    | devB =>
      obtain ⟨⟨hh, hd⟩, hwl'⟩ :
          (holds = true ∧ inDev = false) ∧ wlFrom holds true r = true := by
        simpa [wlFrom, Bool.and_eq_true] using hwl
      simp only [stepTh] at hstep
      cases hstep
      exact ⟨hwl', fun _ => hh, fun h => Or.inl h⟩
    | devE =>
      obtain ⟨hd, hwl'⟩ : inDev = true ∧ wlFrom holds false r = true := by
        simpa [wlFrom, Bool.and_eq_true] using hwl
      simp only [stepTh] at hstep
      rw [if_pos (by simpa using hd)] at hstep
      cases hstep
      refine ⟨hwl', ?_, fun h => Or.inl h⟩
      intro hin
      simp at hin
    | slp d =>
      have hwl' : wlFrom holds inDev r = true := by
        simpa [wlFrom] using hwl
      simp only [stepTh] at hstep
      cases hstep
      exact ⟨hwl', hdh, fun h => Or.inl h⟩

theorem countP_inDev_le_holds :
    ∀ ts : List Th, (∀ t ∈ ts, t.inDev = true → t.holds = true) →
      ts.countP (·.inDev) ≤ ts.countP (·.holds) := by
  intro ts
  induction ts with
  | nil => intro _; simp
  | cons t rest ih =>
    intro h
    have ht := h t (List.mem_cons_self _ _)
    have hrec := ih (fun u hu => h u (List.mem_cons_of_mem _ hu))
    simp only [List.countP_cons]
    by_cases hd : t.inDev = true
    · rw [if_pos (by simpa using hd), if_pos (by simpa using ht hd)]
      omega
    · rw [if_neg (by simpa using hd)]
      by_cases hh : t.holds = true
      · rw [if_pos (by simpa using hh)]
        omega
      · rw [if_neg (by simpa using hh)]
        omega

theorem stepAt_preserves (free : Bool) :
    ∀ (ts : List Th) (i : Nat) (ts' : List Th),
      stepAt free ts i = some ts' →
      (∀ t ∈ ts, wlFrom t.holds t.inDev t.rest = true) →
      (∀ t ∈ ts, t.inDev = true → t.holds = true) →
      (free = true → ∀ t ∈ ts, t.holds = false) →
      (∀ t ∈ ts', wlFrom t.holds t.inDev t.rest = true) ∧
      (∀ t ∈ ts', t.inDev = true → t.holds = true) ∧
      (free = false → ts'.countP (·.holds) ≤ ts.countP (·.holds)) ∧
      (free = true → ts'.countP (·.holds) ≤ 1) := by
  intro ts
  induction ts with
  | nil => intro i ts' h; simp [stepAt] at h
  | cons t rest ih =>
    intro i ts' hstep hwl hdh hfree
    cases i with
    | zero =>
      simp only [stepAt] at hstep
      cases hst : stepTh free t with
      | none => rw [hst] at hstep; simp at hstep
      | some t' =>
        rw [hst] at hstep
        simp at hstep
        subst hstep
        have hp := stepTh_preserves free t t' hst (hwl t (List.mem_cons_self _ _))
          (hdh t (List.mem_cons_self _ _))
        refine ⟨?_, ?_, ?_, ?_⟩
        · intro u hu
          rcases List.mem_cons.mp hu with rfl | hu'
          · exact hp.1
          · exact hwl u (List.mem_cons_of_mem _ hu')
        · intro u hu
          rcases List.mem_cons.mp hu with rfl | hu'
          · exact hp.2.1
          · exact hdh u (List.mem_cons_of_mem _ hu')
        · intro hf
          simp only [List.countP_cons]
          have : t'.holds = true → t.holds = true := by
            intro h
            rcases hp.2.2 h with h1 | h1
            · exact h1
            · rw [h1] at hf; cases hf
          by_cases h1 : t'.holds = true
          · rw [if_pos (by simpa using h1), if_pos (by simpa using this h1)]
          · rw [if_neg (by simpa using h1)]
            by_cases h2 : t.holds = true
            · rw [if_pos (by simpa using h2)]
              omega
            · rw [if_neg (by simpa using h2)]
        · intro hf
          have hzero : rest.countP (·.holds) = 0 := by
            rw [List.countP_eq_zero]
            intro u hu
            simp [hfree hf u (List.mem_cons_of_mem _ hu)]
          simp only [List.countP_cons, hzero]
          by_cases h1 : t'.holds = true
          · rw [if_pos (by simpa using h1)]
          · rw [if_neg (by simpa using h1)]
            omega
    | succ j =>
      simp only [stepAt] at hstep
      cases hs : stepAt free rest j with
      | none => rw [hs] at hstep; simp at hstep
      | some rest' =>
        rw [hs] at hstep
        simp at hstep
        subst hstep
        have hrec := ih j rest' hs
          (fun u hu => hwl u (List.mem_cons_of_mem _ hu))
          (fun u hu => hdh u (List.mem_cons_of_mem _ hu))
          (fun hf u hu => hfree hf u (List.mem_cons_of_mem _ hu))
        refine ⟨?_, ?_, ?_, ?_⟩
        · intro u hu
          rcases List.mem_cons.mp hu with rfl | hu'
          · exact hwl u (List.mem_cons_self _ _)
          · exact hrec.1 u hu'
        · intro u hu
          rcases List.mem_cons.mp hu with rfl | hu'
          · exact hdh u (List.mem_cons_self _ _)
          · exact hrec.2.1 u hu'
        · intro hf
          simp only [List.countP_cons]
          have := hrec.2.2.1 hf
          omega
        · intro hf
          have hth : t.holds = false := hfree hf t (List.mem_cons_self _ _)
          simp only [List.countP_cons, hth]
          have := hrec.2.2.2 hf
          simp
          omega

/-- Invariant: all threads are well-locked continuations, any in-flight
device subprocess belongs to a lock holder, and at most one thread holds
`cam_lock`. -/
def LockInv (ts : List Th) : Prop :=
  (∀ t ∈ ts, wlFrom t.holds t.inDev t.rest = true) ∧
  (∀ t ∈ ts, t.inDev = true → t.holds = true) ∧
  ts.countP (·.holds) ≤ 1

theorem step_preserves (ts : List Th) (i : Nat) (ts' : List Th)
    (hstep : step ts i = some ts') (hinv : LockInv ts) : LockInv ts' := by
  unfold step at hstep
  cases hfree : lockFree ts with
  | true =>
    have hall : ∀ t ∈ ts, t.holds = false := by
      intro t ht
      have := (List.all_eq_true.mp hfree) t ht
      simpa using this
    rw [hfree] at hstep
    have h := stepAt_preserves true ts i ts' hstep hinv.1 hinv.2.1 (fun _ => hall)
    exact ⟨h.1, h.2.1, h.2.2.2 rfl⟩
  | false =>
    rw [hfree] at hstep
    have h := stepAt_preserves false ts i ts' hstep hinv.1 hinv.2.1 (by intro h; cases h)
    exact ⟨h.1, h.2.1, le_trans (h.2.2.1 rfl) hinv.2.2⟩

theorem run_preserves : ∀ (sched : List Nat) (ts ts' : List Th),
    run ts sched = some ts' → LockInv ts → LockInv ts' := by
  intro sched
  induction sched with
  | nil =>
    intro ts ts' h hinv
    simp [run] at h
    subst h
    exact hinv
  | cons i sc ih =>
    intro ts ts' h hinv
    simp only [run] at h
    cases hs : step ts i with
    | none => rw [hs] at h; simp at h
    | some ts1 =>
      rw [hs] at h
      exact ih ts1 ts' h (step_preserves ts i ts1 hs hinv)

/-- **C1 (amended).** All listed device-touching operations *except* the
per-file `--get-file` of the import worker and the `live_stream` movie-capture
launch run their gphoto2 subprocesses inside `cam_lock`; for any thread
pool of such well-locked operations and any schedule, the number of
in-flight device subprocesses never exceeds 1. -/
theorem C1_locked_serialization (ops : List (List Act))
    (hops : ∀ a ∈ ops, wellLocked a = true)
    (sched : List Nat) (ts' : List Th)
    (hrun : run (startThreads ops) sched = some ts') :
    inFlight ts' ≤ 1 := by
  have hinit : LockInv (startThreads ops) := by
    refine ⟨?_, ?_, ?_⟩
    · intro t ht
      simp only [startThreads, List.mem_map] at ht
      obtain ⟨a, ha, rfl⟩ := ht
      exact hops a ha
    · intro t ht
      simp only [startThreads, List.mem_map] at ht
      obtain ⟨a, ha, rfl⟩ := ht
      intro h
      cases h
    · have : (startThreads ops).countP (·.holds) = 0 := by
        rw [List.countP_eq_zero]
        intro t ht
        simp only [startThreads, List.mem_map] at ht
        obtain ⟨a, ha, rfl⟩ := ht
        simp
      omega
  have hfin := run_preserves sched _ ts' hrun hinit
  calc inFlight ts' = ts'.countP (·.inDev) := rfl
    _ ≤ ts'.countP (·.holds) := countP_inDev_le_holds ts' hfin.2.1
    _ ≤ 1 := hfin.2.2

/-- A pool of well-locked operations: a manual capture (cooldown sleep,
live-view stop, transient first attempt), an interval tick, a locked
single gphoto2 call, and a preview card-sync fetch with one retry. -/
def serializedOps : List (List Act) :=
  [captureEndpointActs 0 true true, intervalTickActs false,
    lockedGpCallActs, previewSyncActs true]

/-- A schedule running the four operations of `serializedOps` to
completion, one after the other. -/
def serializedSched : List Nat :=
  List.replicate 10 0 ++ List.replicate 4 1 ++ List.replicate 4 2 ++
    List.replicate 9 3

/-- Final pool state for `serializedSched`: every trace consumed. -/
def serializedFinal : List Th :=
  [⟨[], false, false⟩, ⟨[], false, false⟩, ⟨[], false, false⟩, ⟨[], false, false⟩]

/-- Witness for `C1_locked_serialization` at a concrete pool and schedule. -/
theorem C1_locked_serialization_witness :
    (∀ a ∈ serializedOps, wellLocked a = true) ∧
    run (startThreads serializedOps) serializedSched = some serializedFinal ∧
    inFlight serializedFinal ≤ 1 :=
  ⟨by decide, by decide,
    C1_locked_serialization serializedOps (by decide) serializedSched
      serializedFinal (by decide)⟩

/-- **C1 counterexample.** The import worker's per-file `--get-file` runs
without `cam_lock` (and the movie-stream launch does too), so a valid
interleaving of an import file fetch with a manual capture reaches two
simultaneously in-flight gphoto2 subprocesses. -/
theorem C1_counterexample :
    wellLocked importFetchActs = false ∧
    wellLocked movieStreamStartActs = false ∧
    (run (startThreads [importFetchActs, captureEndpointActs 2000 false false])
      [0, 1, 1]).map inFlight = some 2 ∧
    ¬(2 ≤ 1) := by
  refine ⟨by decide, by decide, by decide, by decide⟩

/-- `sleepsWhileHeldLe bound held acts` : every `time.sleep` executed
while `cam_lock` is held lasts at most `bound` milliseconds. -/
def sleepsWhileHeldLe (bound : Nat) : Bool → List Act → Bool
  | _, [] => true
  | _, .acq :: r => sleepsWhileHeldLe bound true r
  | _, .rel :: r => sleepsWhileHeldLe bound false r
  | held, .slp d :: r =>
    (!held || decide (d ≤ bound)) && sleepsWhileHeldLe bound held r
  | held, .devB :: r => sleepsWhileHeldLe bound held r
  | held, .devE :: r => sleepsWhileHeldLe bound held r

/-- Every sleep performed while holding `cam_lock` is at most `bound` ms. -/
def sleepsUnderLockBounded (bound : Nat) (a : List Act) : Bool :=
  sleepsWhileHeldLe bound false a

/-- **C8 counterexample.** The `/capture` cooldown sleep happens *inside*
`with cam_lock:`: with no recent capture (`delta = 0`) the endpoint sleeps
the full 1.2 s gap while holding the lock, which exceeds the 0.6 s capture
retry delay. -/
theorem C8_counterexample :
    captureEndpointActs 0 false false =
      [.acq, .slp 1200, .devB, .devE, .rel] ∧
    sleepsUnderLockBounded captureDelayMs (captureEndpointActs 0 false false) = false ∧
    captureDelayMs = 600 := by
  refine ⟨by decide, by decide, rfl⟩

/-- **C8 (amended).** Sleeps held under `cam_lock` are bounded by the
1.2 s capture cooldown gap, not by the retry delay: the `/capture`
endpoint sleeps up to `MIN_CAPTURE_GAP` (cooldown) and 0.6 s (retry)
under the lock; an interval tick sleeps at most the 0.6 s retry delay
under the lock; the preview card-sync's 0.8 s retry sleep and the import
worker's per-file fetch perform no sleep at all while holding the lock. -/
theorem C8_lock_sleep_bounds (delta : Nat) (hold f : Bool) :
    sleepsUnderLockBounded minCaptureGapMs (captureEndpointActs delta hold f) = true ∧
    sleepsUnderLockBounded captureDelayMs (intervalTickActs f) = true ∧
    sleepsUnderLockBounded 0 (previewSyncActs f) = true ∧
    sleepsUnderLockBounded 0 importFetchActs = true ∧
    minCaptureGapMs = 1200 ∧ captureDelayMs = 600 := by
  refine ⟨?_, ?_, ?_, by decide, rfl, rfl⟩
  · unfold sleepsUnderLockBounded captureEndpointActs captureOneActs
    by_cases hd : delta < minCaptureGapMs
    · rw [if_pos hd]
      cases hold <;> cases f <;>
        simp [sleepsWhileHeldLe, minCaptureGapMs, captureDelayMs]
    · rw [if_neg hd]
      cases hold <;> cases f <;>
        simp [sleepsWhileHeldLe, minCaptureGapMs, captureDelayMs]
  · cases f <;> decide
  · cases f <;> decide

/-! ## Capture cooldown gate (`/capture`, `LAST_CAPTURE_TS`)

```
now = time.time()
delta = now - LAST_CAPTURE_TS
if delta < MIN_CAPTURE_GAP:
    time.sleep(MIN_CAPTURE_GAP - delta)
LAST_CAPTURE_TS = time.time()
```

Timestamps are milliseconds.  The sleep is modelled as exact, so the
post-sleep clock reads `now + sleep`. -/

/-- The cooldown sleep the `/capture` endpoint performs. -/
def cooldownSleepMs (lastTs nowMs : Nat) : Nat :=
  if nowMs - lastTs < minCaptureGapMs then minCaptureGapMs - (nowMs - lastTs) else 0

/-- The effective start time of the capture (after the cooldown sleep). -/
def captureEffectiveStart (lastTs nowMs : Nat) : Nat :=
  nowMs + cooldownSleepMs lastTs nowMs

/-- The timestamp recorded into `LAST_CAPTURE_TS` after the sleep. -/
def captureRecordedTs (lastTs nowMs : Nat) : Nat :=
  captureEffectiveStart lastTs nowMs

/-- **C9.** Before a manual capture issued less than 1.2 s after the last
accepted capture, the caller is blocked for the remaining delta, so its
effective start is exactly 1.2 s after the previous recorded timestamp,
and the new timestamp is recorded at that effective start; the cooldown
sleep exists only on the manual `/capture` path — an interval tick sleeps
only the 0.6 s retry delay and the import per-file fetch never sleeps. -/
theorem C9_capture_cooldown (lastTs nowMs : Nat)
    (h1 : lastTs ≤ nowMs) (h2 : nowMs - lastTs < minCaptureGapMs) :
    captureEffectiveStart lastTs nowMs = lastTs + minCaptureGapMs ∧
    lastTs + minCaptureGapMs ≤ captureEffectiveStart lastTs nowMs ∧
    captureRecordedTs lastTs nowMs = captureEffectiveStart lastTs nowMs ∧
    (.slp (minCaptureGapMs - (nowMs - lastTs))) ∈
      captureEndpointActs (nowMs - lastTs) false false ∧
    (∀ f, (intervalTickActs f).all
      (fun a => match a with | .slp d => decide (d = captureDelayMs) | _ => true) = true) ∧
    importFetchActs.all
      (fun a => match a with | .slp _ => false | _ => true) = true := by
  refine ⟨?_, ?_, rfl, ?_, ?_, by decide⟩
  · unfold captureEffectiveStart cooldownSleepMs
    rw [if_pos h2]
    omega
  · unfold captureEffectiveStart cooldownSleepMs
    rw [if_pos h2]
    omega
  · unfold captureEndpointActs
    rw [if_pos h2]
    simp
  · intro f
    cases f <;> decide

/-- Witness for `C9_capture_cooldown`: two captures 0.1 s apart — the
second one's effective start is 1.2 s after the first recorded timestamp. -/
theorem C9_capture_cooldown_witness :
    ((0 : Nat) ≤ 100 ∧ 100 - 0 < minCaptureGapMs) ∧
    (captureEffectiveStart 0 100 = 0 + minCaptureGapMs ∧
      0 + minCaptureGapMs ≤ captureEffectiveStart 0 100 ∧
      captureRecordedTs 0 100 = captureEffectiveStart 0 100 ∧
      (.slp (minCaptureGapMs - (100 - 0))) ∈ captureEndpointActs (100 - 0) false false ∧
      (∀ f, (intervalTickActs f).all
        (fun a => match a with | .slp d => decide (d = captureDelayMs) | _ => true) = true) ∧
      importFetchActs.all
        (fun a => match a with | .slp _ => false | _ => true) = true) :=
  ⟨⟨by decide, by decide⟩, C9_capture_cooldown 0 100 (by decide) (by decide)⟩

/-! ## Shared `interval_state` error field (`_capture_one`, `/capture`,
`/api/interval/status`)

`_capture_one`'s exception handlers do
`with interval_lock: interval_state["last_error"] = <error text>`
unconditionally — also when no interval job is running.  The `/capture`
endpoint's error response reads the message back from that same shared
field (`interval_state.get("last_error") or "capture failed"`, with
Python's `or` falling back on both `None` and the empty string), and
`/api/interval/status` returns it in its snapshot. -/

/-- `_capture_one` failure path: record the error text in the shared
`interval_state` (regardless of `interval_state["running"]`). -/
def captureOneRecordError (st : IntervalState) (err : String) : IntervalState :=
  { st with lastError := some err }

/-- The `/api/interval/status` snapshot: `(running, interval, remaining,
total, last_error)`. -/
def intervalStatusSnapshot (st : IntervalState) :
    Bool × Nat × Nat × Nat × Option String :=
  (st.running, st.intervalMs, st.remaining, st.total, st.lastError)

/-- Python `x or default` on an optional string: `None` and `""` both fall
back to the default. -/
def pyOrDefault (o : Option String) (d : String) : String :=
  match o with
  | none => d
  | some s => if s = "" then d else s

/-- The error text of the `/capture` endpoint's failure response:
`interval_state.get("last_error") or "capture failed"`. -/
def captureErrorResponse (st : IntervalState) : String :=
  pyOrDefault st.lastError "capture failed"

/-- **C10.** A failed manual capture writes its error text into the
intervalometer job's shared `interval_state["last_error"]` even when no
interval job is running — so the subsequently polled interval status
snapshot changes — and the `/capture` error response is read back from
that very field. -/
theorem C10_capture_error_shared_state (st : IntervalState) (err : String)
    (hrun : st.running = false) (hne : err ≠ "") :
    intervalStatusSnapshot (captureOneRecordError st err) =
      (false, st.intervalMs, st.remaining, st.total, some err) ∧
    captureErrorResponse (captureOneRecordError st err) = err ∧
    (st.lastError = none →
      intervalStatusSnapshot (captureOneRecordError st err) ≠ intervalStatusSnapshot st) := by
  refine ⟨?_, ?_, ?_⟩
  · simp [intervalStatusSnapshot, captureOneRecordError, hrun]
  · simp [captureErrorResponse, captureOneRecordError, pyOrDefault, hne]
  · intro hnone
    simp [intervalStatusSnapshot, captureOneRecordError, hnone]

/-- Witness for `C10_capture_error_shared_state`: idle interval state, a
gphoto2 "could not claim the USB device" capture failure. -/
theorem C10_capture_error_shared_state_witness :
    ((⟨false, 0, 0, 0, none⟩ : IntervalState).running = false ∧
      ("Could not claim the USB device" : String) ≠ "") ∧
    (intervalStatusSnapshot
        (captureOneRecordError ⟨false, 0, 0, 0, none⟩ "Could not claim the USB device") =
      (false, 0, 0, 0, some "Could not claim the USB device") ∧
    captureErrorResponse
        (captureOneRecordError ⟨false, 0, 0, 0, none⟩ "Could not claim the USB device") =
      "Could not claim the USB device" ∧
    ((⟨false, 0, 0, 0, none⟩ : IntervalState).lastError = none →
      intervalStatusSnapshot
          (captureOneRecordError ⟨false, 0, 0, 0, none⟩ "Could not claim the USB device") ≠
        intervalStatusSnapshot ⟨false, 0, 0, 0, none⟩)) :=
  ⟨⟨rfl, by decide⟩,
    C10_capture_error_shared_state ⟨false, 0, 0, 0, none⟩
      "Could not claim the USB device" rfl (by decide)⟩
